import Mathlib

/-!
Verification of the agent orchestration core found in
`agents/refactored/core/` (memory.py, tool_executor.py, agent.py, errors.py).

The Python code is shallowly embedded: JSON-ish Python values become the
inductive `JValue`; Python dicts become insertion-ordered association lists
(`Dict`); `datetime.now()` becomes an explicit `Nat` clock argument threaded
through the stateful operations; raised exceptions become `Except PyExn`.
-/

set_option maxRecDepth 20000

namespace AgentsCore

/-- A JSON-serialisable Python value: the value domain produced by
`json.loads` and stored in tool inputs, memory items and message metadata.
(Float literals are not modelled; the repository's core only handles the
integer numerals appearing in tool inputs.) -/
inductive JValue where
  | null
  | bool (b : Bool)
  | num (n : Int)
  | str (s : String)
  | arr (xs : List JValue)
  | obj (fields : List (String × JValue))
deriving Repr

mutual

/-- Structural equality test for `JValue`. -/
def JValue.beq : JValue → JValue → Bool
  | .null, .null => true
  | .bool a, .bool b => a == b
  | .num a, .num b => a == b
  | .str a, .str b => a == b
  | .arr xs, .arr ys => JValue.beqList xs ys
  | .obj fs, .obj gs => JValue.beqFields fs gs
  | _, _ => false

/-- Elementwise equality test for lists of `JValue`. -/
def JValue.beqList : List JValue → List JValue → Bool
  | [], [] => true
  | x :: xs, y :: ys => JValue.beq x y && JValue.beqList xs ys
  | _, _ => false

/-- Elementwise equality test for lists of key/value pairs. -/
def JValue.beqFields : List (String × JValue) → List (String × JValue) → Bool
  | [], [] => true
  | (k, v) :: xs, (k', v') :: ys =>
      k == k' && JValue.beq v v' && JValue.beqFields xs ys
  | _, _ => false

end

mutual

theorem JValue.eq_of_beq : ∀ {a b : JValue}, JValue.beq a b = true → a = b
  | .null, .null, _ => rfl
  | .bool _, .bool _, h => by
      simp only [JValue.beq, beq_iff_eq] at h; rw [h]
  | .num _, .num _, h => by
      simp only [JValue.beq, beq_iff_eq] at h; rw [h]
  | .str _, .str _, h => by
      simp only [JValue.beq, beq_iff_eq] at h; rw [h]
  | .arr xs, .arr ys, h => by
      rw [JValue.eqList_of_beqList (a := xs) (b := ys) h]
  | .obj fs, .obj gs, h => by
      rw [JValue.eqFields_of_beqFields (a := fs) (b := gs) h]

theorem JValue.eqList_of_beqList :
    ∀ {a b : List JValue}, JValue.beqList a b = true → a = b
  | [], [], _ => rfl
  | x :: xs, y :: ys, h => by
      simp only [JValue.beqList, Bool.and_eq_true] at h
      rw [JValue.eq_of_beq h.1, JValue.eqList_of_beqList h.2]

theorem JValue.eqFields_of_beqFields :
    ∀ {a b : List (String × JValue)}, JValue.beqFields a b = true → a = b
  | [], [], _ => rfl
  | (k, v) :: xs, (k', v') :: ys, h => by
      simp only [JValue.beqFields, Bool.and_eq_true, beq_iff_eq] at h
      rw [h.1.1, JValue.eq_of_beq h.1.2, JValue.eqFields_of_beqFields h.2]

end

mutual

theorem JValue.beq_refl : ∀ (a : JValue), JValue.beq a a = true
  | .null => rfl
  | .bool b => by simp [JValue.beq]
  | .num n => by simp [JValue.beq]
  | .str s => by simp [JValue.beq]
  | .arr xs => JValue.beqList_refl xs
  | .obj fs => JValue.beqFields_refl fs

theorem JValue.beqList_refl : ∀ (a : List JValue), JValue.beqList a a = true
  | [] => rfl
  | x :: xs => by
      simp only [JValue.beqList, Bool.and_eq_true]
      exact ⟨JValue.beq_refl x, JValue.beqList_refl xs⟩

theorem JValue.beqFields_refl :
    ∀ (a : List (String × JValue)), JValue.beqFields a a = true
  | [] => rfl
  | (k, v) :: xs => by
      simp only [JValue.beqFields, Bool.and_eq_true, beq_self_eq_true]
      exact ⟨⟨trivial, JValue.beq_refl v⟩, JValue.beqFields_refl xs⟩

end

instance : DecidableEq JValue := fun a b =>
  if h : JValue.beq a b = true then .isTrue (JValue.eq_of_beq h)
  else .isFalse (fun he => h (he ▸ JValue.beq_refl a))

/-- A Python `dict[str, Any]`, as an insertion-ordered association list. -/
abbrev Dict := List (String × JValue)

/-- Python `d.get(k)` / `d[k]`: the value at the first occurrence of key `k`. -/
def dictGet (d : Dict) (k : String) : Option JValue :=
  match d with
  | [] => none
  | (k', v) :: rest => if k' = k then some v else dictGet rest k

/-- Python `k in d` membership test for a dict. -/
def dictHas (d : Dict) (k : String) : Bool :=
  match d with
  | [] => false
  | (k', _) :: rest => if k' = k then true else dictHas rest k

/-- Python `d[k] = v`: replaces the value in place if the key exists (keeping its
position, Python dict semantics), otherwise appends the new key at the end. -/
def dictSet (d : Dict) (k : String) (v : JValue) : Dict :=
  match d with
  | [] => [(k, v)]
  | (k', v') :: rest =>
      if k' = k then (k', v) :: rest else (k', v') :: dictSet rest k v

/-- Python `d.update(u)`: sets every entry of `u`, in order, into `d`. -/
def dictUpdate (d : Dict) : Dict → Dict
  | [] => d
  | (k, v) :: u => dictUpdate (dictSet d k v) u

/-- Python truthiness of a `JValue` (`bool(v)`). -/
def py_truthy : JValue → Bool
  | .null => false
  | .bool b => b
  | .num n => n != 0
  | .str s => s != ""
  | .arr xs => !xs.isEmpty
  | .obj fs => !fs.isEmpty

/-- Truthiness of an optional value (`None` is falsy). -/
def py_truthyOpt : Option JValue → Bool
  | none => false
  | some v => py_truthy v

mutual

/-- Python `repr()` of a JSON-ish value, as used when a container is
formatted with an f-string (`str(list)` calls `repr` on the elements).
String escaping inside `repr` is not modelled: the repository only ever
feeds these strings back to the language model as observations. -/
def pyRepr : JValue → String
  | .null => "None"
  | .bool true => "True"
  | .bool false => "False"
  | .num n => toString n
  | .str s => "'" ++ s ++ "'"
  | .arr xs => "[" ++ pyReprList xs ++ "]"
  | .obj fs => "\x7b" ++ pyReprFields fs ++ "\x7d"

/-- Comma-joined `repr`s of list elements. -/
def pyReprList : List JValue → String
  | [] => ""
  | [x] => pyRepr x
  | x :: xs => pyRepr x ++ ", " ++ pyReprList xs

/-- Comma-joined `repr(k): repr(v)` pairs of dict entries. -/
def pyReprFields : List (String × JValue) → String
  | [] => ""
  | [(k, v)] => "'" ++ k ++ "': " ++ pyRepr v
  | (k, v) :: fs => "'" ++ k ++ "': " ++ pyRepr v ++ ", " ++ pyReprFields fs

end

/-- Python `str()` of a JSON-ish value (`str` differs from `repr` only at
the top level of a string). -/
def pyStr : JValue → String
  | .str s => s
  | v => pyRepr v

/-- The Python exceptions raised by the embedded code (errors.py plus the
built-in exceptions that can arise from the operations it performs).
`AgentError` subclasses carry the constructor arguments recorded in
errors.py; `details` dictionaries are recovered from them by `PyExn.details`. -/
inductive PyExn where
  /-- An arbitrary exception raised by a tool executable or the runtime;
  carries the type name and the message. -/
  | other (typeName : String) (msg : String)
  /-- errors.py `ToolNotFoundError(tool_name)`. -/
  | toolNotFound (toolName : String)
  /-- errors.py `ToolExecutionError(tool_name, cause)`; `cause` is `str(cause)`
  and `causeType` is `type(cause).__name__`. -/
  | toolExecutionError (toolName : String) (cause : String) (causeType : String)
  /-- errors.py `InvalidToolInputError(tool_name, validation_errors)`;
  the validation error detail is the schema checker's message. -/
  | invalidToolInput (toolName : String) (errs : String)
  /-- errors.py `ParsingError(message, raw_output)`. -/
  | parsingError (msg : String) (raw : String)
  /-- errors.py `MemoryError(message)` (constructed with `details=None`). -/
  | memoryError (msg : String)
deriving DecidableEq, Repr

/-- Python `type(e).__name__`. -/
def PyExn.typeName : PyExn → String
  | .other t _ => t
  | .toolNotFound _ => "ToolNotFoundError"
  | .toolExecutionError .. => "ToolExecutionError"
  | .invalidToolInput .. => "InvalidToolInputError"
  | .parsingError .. => "ParsingError"
  | .memoryError _ => "MemoryError"

/-- Test for `isinstance(e, InvalidToolInputError)`. -/
def PyExn.isInvalidToolInput : PyExn → Bool
  | .invalidToolInput .. => true
  | _ => false

/-- Test for `isinstance(e, ToolExecutionError)`. -/
def PyExn.isToolExecutionError : PyExn → Bool
  | .toolExecutionError .. => true
  | _ => false

/-- The `message` attribute set by the errors.py constructors. -/
def PyExn.message : PyExn → String
  | .other _ m => m
  | .toolNotFound t => "Tool '" ++ t ++ "' not found in registry"
  | .toolExecutionError t c _ => "Error executing tool '" ++ t ++ "': " ++ c
  | .invalidToolInput t _ => "Invalid input for tool '" ++ t ++ "'"
  | .parsingError m _ => m
  | .memoryError m => m

/-- The `details` dictionary set by the errors.py constructors
(string-valued entries, as the code builds them). -/
def PyExn.details : PyExn → Dict
  | .other _ _ => []
  | .toolNotFound t => [("tool_name", .str t)]
  | .toolExecutionError t c ct =>
      [("tool_name", .str t), ("cause", .str c), ("cause_type", .str ct)]
  | .invalidToolInput t e =>
      [("tool_name", .str t),
       ("validation_errors", .obj [("error", .str e)])]
  | .parsingError _ raw => [("raw_output", .str raw)]
  | .memoryError _ => []

/-- The errors.py `ErrorCode` value string of an exception. -/
def PyExn.codeValue : PyExn → String
  | .other _ _ => "unknown_error"
  | .toolNotFound _ => "tool_not_found"
  | .toolExecutionError .. => "tool_execution_error"
  | .invalidToolInput .. => "invalid_tool_input"
  | .parsingError .. => "parsing_error"
  | .memoryError _ => "memory_error"

/-- Python `str(e)`: `AgentError.__str__` for the errors.py exceptions
(`"code: message - details"`, omitting the details part when the details
dict is empty); built-in exceptions print their message. -/
def PyExn.toPyString (e : PyExn) : String :=
  match e with
  | .other _ m => m
  | _ =>
      if e.details.isEmpty then e.codeValue ++ ": " ++ e.message
      else e.codeValue ++ ": " ++ e.message ++ " - " ++ pyRepr (.obj e.details)

/-- Model of `traceback.format_exc()` for a caught exception — a model of the Python
runtime's traceback rendering (the exact text is irrelevant to the code,
which only stores it). -/
def formatExc (e : PyExn) : String :=
  "Traceback (most recent call last): " ++ e.typeName ++ ": " ++ e.message

/-! ### String utilities used by agent.py

Python regular-expression operations are embedded as character-list scans
with the same observable behaviour on the patterns the code uses. -/

/-- The ASCII characters matched by Python's regex `\s` class and by
`str.strip()` / `str.isspace()`. -/
def pyIsSpace (c : Char) : Bool :=
  c = ' ' || c = '\t' || c = '\n' || c = '\x0d' || c = '\x0b' || c = '\x0c'

/-- Python `str.strip()`: drop leading and trailing whitespace. -/
def pyStrip (s : String) : String :=
  String.mk (((s.data.dropWhile pyIsSpace).reverse.dropWhile pyIsSpace).reverse)

/-- agent.py line 151, `action_json.replace("'", "\"")`: replace every
single-quote character by a double quote. -/
def replaceQuotes (s : String) : String :=
  String.mk (s.data.map (fun c => if c = '\'' then '"' else c))

/-- agent.py line 165, `re.sub(r"\s+", "", ...)`: remove all whitespace. -/
def stripAllWs (s : String) : String :=
  String.mk (s.data.filter (fun c => !pyIsSpace c))

/-- Fuelled scan for `re.sub(r",\s*X", "X", s)` with `X` a closing bracket:
a comma whose next non-whitespace character is `close` is deleted together
with the intervening whitespace; scanning resumes after the match, exactly
as `re.sub` does (the pattern `,\s*X` matches iff the first non-whitespace
character after the comma is `X`, since `X` is not itself whitespace). -/
def subCommaCloseF (close : Char) : Nat → List Char → List Char
  | 0, cs => cs
  | _ + 1, [] => []
  | fuel + 1, c :: rest =>
      if c = ',' then
        let ws := rest.takeWhile pyIsSpace
        match rest.drop ws.length with
        | c' :: rest' =>
            if c' = close then close :: subCommaCloseF close fuel rest'
            else c :: subCommaCloseF close fuel rest
        | [] => c :: subCommaCloseF close fuel rest
      else c :: subCommaCloseF close fuel rest

/-- agent.py lines 154-155: `re.sub(r",\s*}", "}", s)` followed by
`re.sub(r",\s*]", "]", s)`. -/
def subTrailingCommas (s : String) : String :=
  let pass1 := subCommaCloseF '\x7d' s.data.length s.data
  String.mk (subCommaCloseF ']' pass1.length pass1)

/-- Split a character list at the first occurrence of `pat`, returning the
part before the match and the part after it. -/
def strFindSplit (pat : List Char) : List Char → Option (List Char × List Char)
  | [] => if pat = [] then some ([], []) else none
  | c :: cs =>
      if pat.isPrefixOf (c :: cs) then some ([], (c :: cs).drop pat.length)
      else match strFindSplit pat cs with
           | some (pre, post) => some (c :: pre, post)
           | none => none

/-- agent.py line 138, `re.search(r"<action>(.*?)</action>", text, re.DOTALL)`:
the captured group of the leftmost match. The regex matches at the first
occurrence of an opening tag that is followed by a closing tag (if the first
opening tag has no closing tag after it, no later one does either), and the
non-greedy group ends at the first closing tag after that opening tag. -/
def findActionBlock (text : String) : Option String :=
  match strFindSplit "<action>".data text.data with
  | none => none
  | some (_, rest) =>
      match strFindSplit "</action>".data rest with
      | none => none
      | some (content, _) => some (String.mk content)

/-! ### JSON parsing

Model of Python's `json.loads` on the value domain `JValue`: strict JSON
with integer numerals (fraction/exponent forms and `\uXXXX` escapes beyond
the Basic Multilingual Plane are not modelled; the repository's action
payloads never contain them). Parsing is fuelled; every fuelled recursive
call consumes at least one input character, so fuel `length + 1` suffices. -/

/-- The JSON whitespace characters skipped by `json.loads` between tokens. -/
def jsonIsSpace (c : Char) : Bool :=
  c = ' ' || c = '\t' || c = '\n' || c = '\x0d'

/-- Skip JSON whitespace. -/
def jskipWs (cs : List Char) : List Char := cs.dropWhile jsonIsSpace

/-- Parse the body of a JSON string literal (after the opening quote),
returning the decoded characters and the input after the closing quote. -/
def jparseStringBody : List Char → Option (List Char × List Char)
  | [] => none
  | '"' :: rest => some ([], rest)
  | '\\' :: e :: rest => do
      let c ←
        match e with
        | '"' => some '"'
        | '\\' => some '\\'
        | '/' => some '/'
        | 'n' => some '\n'
        | 't' => some '\t'
        | 'r' => some '\x0d'
        | 'b' => some '\x08'
        | 'f' => some '\x0c'
        | _ => none
      let (body, rest') ← jparseStringBody rest
      some (c :: body, rest')
  | c :: rest =>
      if c.toNat < 0x20 then none
      else do
        let (body, rest') ← jparseStringBody rest
        some (c :: body, rest')

/-- Decimal digit value. -/
def digitVal (c : Char) : Nat := c.toNat - '0'.toNat

/-- Parse an unsigned JSON integer: one or more digits, no leading zero
unless the numeral is exactly `0`. -/
def jparseNat (cs : List Char) : Option (Nat × List Char) :=
  match cs with
  | [] => none
  | c :: rest =>
      if c = '0' then
        match rest with
        | r :: _ => if r.isDigit then none else some (0, rest)
        | [] => some (0, [])
      else if c.isDigit then
        let digits := rest.takeWhile Char.isDigit
        some (digits.foldl (fun acc d => acc * 10 + digitVal d) (digitVal c),
              rest.drop digits.length)
      else none

mutual

/-- Parse one JSON value starting at `cs` (leading whitespace allowed). -/
def jparseVal : Nat → List Char → Option (JValue × List Char)
  | 0, _ => none
  | fuel + 1, cs =>
      match jskipWs cs with
      | [] => none
      | c :: rest =>
          if c = '\x7b' then
            match jskipWs rest with
            | '\x7d' :: rest' => some (.obj [], rest')
            | _ => jparseObjMembers fuel rest []
          else if c = '[' then
            match jskipWs rest with
            | ']' :: rest' => some (.arr [], rest')
            | _ => jparseArrElems fuel rest []
          else if c = '"' then
            match jparseStringBody rest with
            | some (body, rest') => some (.str (String.mk body), rest')
            | none => none
          else if c = 't' then
            if "rue".data.isPrefixOf rest then some (.bool true, rest.drop 3)
            else none
          else if c = 'f' then
            if "alse".data.isPrefixOf rest then some (.bool false, rest.drop 4)
            else none
          else if c = 'n' then
            if "ull".data.isPrefixOf rest then some (.null, rest.drop 3)
            else none
          else if c = '-' then
            match jparseNat rest with
            | some (n, rest') => some (.num (-(n : Int)), rest')
            | none => none
          else
            match jparseNat (c :: rest) with
            | some (n, rest') => some (.num (n : Int), rest')
            | none => none

/-- Parse the elements of a non-empty JSON array (after the opening
bracket), accumulating into `acc`. -/
def jparseArrElems : Nat → List Char → List JValue → Option (JValue × List Char)
  | 0, _, _ => none
  | fuel + 1, cs, acc =>
      match jparseVal fuel cs with
      | none => none
      | some (v, rest) =>
          match jskipWs rest with
          | ',' :: rest' => jparseArrElems fuel rest' (acc ++ [v])
          | ']' :: rest' => some (.arr (acc ++ [v]), rest')
          | _ => none

/-- Parse the members of a non-empty JSON object (after the opening brace),
accumulating into `acc`; duplicate keys overwrite as Python dicts do. -/
def jparseObjMembers : Nat → List Char → Dict → Option (JValue × List Char)
  | 0, _, _ => none
  | fuel + 1, cs, acc =>
      match jskipWs cs with
      | '"' :: rest =>
          match jparseStringBody rest with
          | none => none
          | some (keyChars, rest1) =>
              match jskipWs rest1 with
              | ':' :: rest2 =>
                  match jparseVal fuel rest2 with
                  | none => none
                  | some (v, rest3) =>
                      let acc' := dictSet acc (String.mk keyChars) v
                      match jskipWs rest3 with
                      | ',' :: rest4 => jparseObjMembers fuel rest4 acc'
                      | '\x7d' :: rest4 => some (.obj acc', rest4)
                      | _ => none
              | _ => none
      | _ => none

end

/-- Model of `json.loads s`: parse one JSON value and require only
whitespace to remain (`json.loads` raises on trailing data). -/
def jsonParse (s : String) : Option JValue :=
  match jparseVal (s.data.length + 1) s.data with
  | some (v, rest) => if jskipWs rest = [] then some v else none
  | none => none

/-! ### memory.py -/

/-- memory.py `MemoryItem`: a keyed value with metadata and timestamps.
`datetime.now()` is modelled by the explicit `Nat` clock argument of the
operations that construct or update items. -/
structure MemoryItem where
  key : String
  value : JValue
  metadata : Dict
  created_at : Nat
  updated_at : Nat
deriving DecidableEq, Repr

/-- Truthiness of an optional metadata dict (`if metadata:` — `None` and the
empty dict are both falsy). -/
def mdTruthy : Option Dict → Bool
  | none => false
  | some l => !l.isEmpty

/-- Python `metadata or {}`. -/
def mdOrEmpty : Option Dict → Dict
  | none => []
  | some l => l

/-- memory.py `MemoryItem.__init__(key, value, metadata)` at clock `now`. -/
def MemoryItem.init (key : String) (value : JValue) (metadata : Option Dict)
    (now : Nat) : MemoryItem :=
  { key := key, value := value, metadata := mdOrEmpty metadata,
    created_at := now, updated_at := now }

/-- memory.py `MemoryItem.update(value, metadata)` at clock `now`: replaces
the value, merges non-empty metadata into the existing metadata and bumps
`updated_at` (but not `created_at`). -/
def MemoryItem.update (it : MemoryItem) (value : JValue)
    (metadata : Option Dict) (now : Nat) : MemoryItem :=
  { it with
      value := value,
      metadata := if mdTruthy metadata then dictUpdate it.metadata (mdOrEmpty metadata)
                  else it.metadata,
      updated_at := now }

/-- memory.py `MemoryItem.to_dict()`; `isoformat()` timestamps are modelled
as the decimal rendering of the clock value. -/
def MemoryItem.to_dict (it : MemoryItem) : JValue :=
  .obj [("key", .str it.key), ("value", it.value), ("metadata", .obj it.metadata),
        ("created_at", .str (toString it.created_at)),
        ("updated_at", .str (toString it.updated_at))]

/-- memory.py `Message`: one entry of the conversation history. `content`
is a `JValue` because the orchestrator can store a non-string final answer. -/
structure Message where
  role : String
  content : JValue
  metadata : Dict
  timestamp : Nat
deriving DecidableEq, Repr

/-- memory.py `Message.__init__(role, content, metadata)` at clock `now`. -/
def Message.init (role : String) (content : JValue) (metadata : Option Dict)
    (now : Nat) : Message :=
  { role := role, content := content, metadata := mdOrEmpty metadata,
    timestamp := now }

/-- memory.py `Message.to_dict()`. -/
def Message.to_dict (m : Message) : JValue :=
  .obj [("role", .str m.role), ("content", m.content),
        ("metadata", .obj m.metadata), ("timestamp", .str (toString m.timestamp))]

/-- memory.py `Message.to_llm_format()`. -/
def Message.to_llm_format (m : Message) : String × JValue := (m.role, m.content)

/-- memory.py `ConversationHistory`. -/
structure ConversationHistory where
  messages : List Message
  max_messages : Nat
deriving DecidableEq, Repr

/-- memory.py `ConversationHistory.__init__(max_messages)`. -/
def ConversationHistory.init (max_messages : Nat) : ConversationHistory :=
  { messages := [], max_messages := max_messages }

/-- Python list slice `l[-n:]`. Note that for `n = 0` the slice `l[-0:]`
is `l[0:]`, the whole list — not the empty list. -/
def pySliceLast (n : Nat) (l : List Message) : List Message :=
  if n = 0 then l else l.drop (l.length - n)

/-- memory.py `ConversationHistory.add(role, content, metadata)` at clock
`now`: append a fresh message, then trim to the last `max_messages`
(via the slice `messages[-max_messages:]`) when the length exceeds it. -/
def ConversationHistory.add (h : ConversationHistory) (role : String)
    (content : JValue) (metadata : Option Dict) (now : Nat) : ConversationHistory :=
  let msgs := h.messages ++ [Message.init role content metadata now]
  if msgs.length > h.max_messages then
    { h with messages := pySliceLast h.max_messages msgs }
  else
    { h with messages := msgs }

/-- memory.py `ConversationHistory.to_llm_format()`. -/
def ConversationHistory.to_llm_format (h : ConversationHistory) :
    List (String × JValue) :=
  h.messages.map Message.to_llm_format

/-- memory.py `MemoryStore`: conversation history plus the keyed store
(`data`, a Python dict from key to `MemoryItem`). -/
structure MemoryStore where
  conversation : ConversationHistory
  data : List (String × MemoryItem)
deriving DecidableEq, Repr

/-- memory.py `MemoryStore.__init__(max_conversation_history=100)`. -/
def MemoryStore.init (max_conversation_history : Nat := 100) : MemoryStore :=
  { conversation := ConversationHistory.init max_conversation_history, data := [] }

/-- Lookup in the keyed store (first occurrence; real stores have unique keys). -/
def itemGet (d : List (String × MemoryItem)) (k : String) : Option MemoryItem :=
  match d with
  | [] => none
  | (k', v) :: rest => if k' = k then some v else itemGet rest k

/-- Python `k in data`. -/
def itemHas (d : List (String × MemoryItem)) (k : String) : Bool :=
  match d with
  | [] => false
  | (k', _) :: rest => if k' = k then true else itemHas rest k

/-- In-place update of the entry at key `k` (`self.data[key].update(...)`). -/
def itemModify (d : List (String × MemoryItem)) (k : String)
    (f : MemoryItem → MemoryItem) : List (String × MemoryItem) :=
  match d with
  | [] => []
  | (k', v) :: rest =>
      if k' = k then (k', f v) :: itemModify rest k f
      else (k', v) :: itemModify rest k f

/-- memory.py `MemoryStore.add_message(role, content, metadata)`. -/
def MemoryStore.add_message (s : MemoryStore) (role : String) (content : JValue)
    (metadata : Option Dict) (now : Nat) : MemoryStore :=
  { s with conversation := s.conversation.add role content metadata now }

/-- memory.py `MemoryStore.get_conversation_history()`. -/
def MemoryStore.get_conversation_history (s : MemoryStore) :
    List (String × JValue) :=
  s.conversation.to_llm_format

/-- memory.py `MemoryStore.remember(key, value, metadata)` at clock `now`:
update in place when the key exists, else create a new item. -/
def MemoryStore.remember (s : MemoryStore) (key : String) (value : JValue)
    (metadata : Option Dict) (now : Nat) : MemoryStore :=
  if itemHas s.data key then
    { s with data := itemModify s.data key (fun it => it.update value metadata now) }
  else
    { s with data := s.data ++ [(key, MemoryItem.init key value metadata now)] }

/-- memory.py `MemoryStore.recall(key)`: the stored value, or `None`. -/
def MemoryStore.recall (s : MemoryStore) (key : String) : Option JValue :=
  (itemGet s.data key).map MemoryItem.value

/-- memory.py `MemoryStore.has_key(key)`. -/
def MemoryStore.has_key (s : MemoryStore) (key : String) : Bool :=
  itemHas s.data key

/-- memory.py `MemoryStore.forget(key)`. -/
def MemoryStore.forget (s : MemoryStore) (key : String) : MemoryStore × Bool :=
  if itemHas s.data key then
    ({ s with data := s.data.filter (fun p => p.1 ≠ key) }, true)
  else (s, false)

/-- memory.py `MemoryStore.to_json()`: the snapshot. `json.dumps` and the
matching `json.loads` are modelled as the identity on the parsed value (they
round-trip exactly on the `JValue` domain), so the snapshot is represented
by the dictionary that is serialised. Serialisation of a `JValue` store
never fails, so the `MemoryError` wrapper of `to_json` is unreachable. -/
def MemoryStore.to_json (s : MemoryStore) : JValue :=
  .obj [("data", .obj (s.data.map (fun p => (p.1, p.2.to_dict)))),
        ("conversation", .arr (s.conversation.messages.map Message.to_dict))]

/-- Read one serialised item of the snapshot's `data` dict into a
`remember` call: `value = item_dict.get("value")` (default `None`) and
`metadata = item_dict.get("metadata", {})`. A non-dict `metadata` entry in a
hand-crafted snapshot would be stored untyped by Python; the typed model
represents that degenerate case by the empty dict. -/
def restoreItem (s : MemoryStore) (now : Nat) (k : String) (itemDict : JValue) :
    Except PyExn MemoryStore :=
  match itemDict with
  | .obj f =>
      let value := (dictGet f "value").getD .null
      let metadata := match dictGet f "metadata" with
                      | some (.obj md) => md
                      | _ => []
      .ok (s.remember k value (some metadata) now)
  | _ =>
      -- `item_dict.get(...)` on a non-dict raises `AttributeError`,
      -- caught and wrapped by `from_json`.
      .error (.memoryError "Failed to deserialize memory from JSON: AttributeError")

/-- Read one serialised message of the snapshot's `conversation` list into
an `add_message` call (defaults `""` for role and content, `{}` for
metadata). -/
def restoreMessage (s : MemoryStore) (now : Nat) (msgDict : JValue) :
    Except PyExn MemoryStore :=
  match msgDict with
  | .obj f =>
      let role := match dictGet f "role" with
                  | some (.str r) => r
                  | _ => ""
      let content := (dictGet f "content").getD (.str "")
      let metadata := match dictGet f "metadata" with
                      | some (.obj md) => md
                      | _ => []
      .ok (s.add_message role content (some metadata) now)
  | _ =>
      .error (.memoryError "Failed to deserialize memory from JSON: AttributeError")

/-- Fold a restore step over a list, propagating the first failure. -/
def restoreFold {α : Type} (step : MemoryStore → α → Except PyExn MemoryStore)
    (s : MemoryStore) : List α → Except PyExn MemoryStore
  | [] => .ok s
  | x :: xs => match step s x with
               | .ok s' => restoreFold step s' xs
               | .error e => .error e

/-- memory.py `MemoryStore.from_json(json_str)` at clock `now`: build a
fresh store with the default history bound (100), `remember` every item of
the snapshot's `data` dict in order, then `add_message` every entry of its
`conversation` list in order. Timestamps stored in the snapshot are ignored.
Any exception during restoration is wrapped in a `MemoryError`. -/
def MemoryStore.from_json (snap : JValue) (now : Nat) : Except PyExn MemoryStore :=
  match snap with
  | .obj fields =>
      let store := MemoryStore.init
      let dataPart := (dictGet fields "data").getD (.obj [])
      match dataPart with
      | .obj items =>
          match restoreFold (fun s p => restoreItem s now p.1 p.2) store items with
          | .error e => .error e
          | .ok store =>
              let convPart := (dictGet fields "conversation").getD (.arr [])
              match convPart with
              | .arr msgs => restoreFold (fun s m => restoreMessage s now m) store msgs
              | _ =>
                  -- iterating a non-list either raises `TypeError` or yields
                  -- elements on which `.get` raises `AttributeError`; both are
                  -- caught and wrapped.
                  .error (.memoryError
                    "Failed to deserialize memory from JSON: malformed conversation")
      | _ =>
          -- `.items()` on a non-dict raises `AttributeError`, caught and wrapped.
          .error (.memoryError
            "Failed to deserialize memory from JSON: malformed data")
  | _ =>
      -- `memory_dict.get` on a non-dict raises `AttributeError`, caught and
      -- wrapped (a non-JSON snapshot string likewise fails inside `json.loads`).
      .error (.memoryError "Failed to deserialize memory from JSON: malformed snapshot")

/-- The store `from_json` reconstructs from `to_json s` when `s` is
well-formed: identical keys, values and metadata; all timestamps reset to
the restore clock; and — because `from_json` rebuilds through `cls()` with
the default history bound of 100 — only the most recent 100 conversation
messages retained (the whole conversation exactly when it has at most 100
messages, since `l.drop (l.length - 100)` is then `l` itself). -/
def restampStore (s : MemoryStore) (now : Nat) : MemoryStore :=
  { conversation :=
      { messages :=
          (s.conversation.messages.map (fun m => { m with timestamp := now })).drop
            (s.conversation.messages.length - 100),
        max_messages := 100 },
    data := s.data.map
      (fun p => (p.1, { p.2 with created_at := now, updated_at := now })) }

/-! ### tool_executor.py

Tool executables are modelled as functions from a validated parameter dict
to `Except PyExn JValue`: a `.ok` is the Python return value, a `.error` is
an exception raised inside the executable. The `jsonschema` validator is
modelled on the schema shape this repository uses (`type: object` with
`properties` type declarations and a `required` list). -/

/-- The primitive type names appearing in the repository's tool schemas. -/
inductive JSchemaType where
  | string | integer | number | boolean | array | object
deriving DecidableEq, Repr

/-- Whether a value satisfies a declared schema type, as `jsonschema` checks
it (draft validators treat `bool` as distinct from the numeric types). -/
def jtypeMatches : JSchemaType → JValue → Bool
  | .string, .str _ => true
  | .integer, .num _ => true
  | .number, .num _ => true
  | .boolean, .bool _ => true
  | .array, .arr _ => true
  | .object, .obj _ => true
  | _, _ => false

/-- A tool parameter schema: `{"type": "object", "properties": ...,
"required": ...}`. -/
structure Schema where
  properties : List (String × JSchemaType)
  required : List String
deriving DecidableEq, Repr

/-- Model of `jsonschema.validate(instance=params, schema=...)` on the
repository's schema shape: every required field must be present, and every
present field that is declared in `properties` must match its type.
(Undeclared extra fields are allowed, as `jsonschema` allows them.) -/
def schemaValidate (schema : Schema) (params : Dict) : Bool :=
  schema.required.all (fun r => dictHas params r) &&
  schema.properties.all (fun p =>
    match dictGet params p.1 with
    | some v => jtypeMatches p.2 v
    | none => true)

/-- tool_executor.py `ToolResult`. -/
structure ToolResult where
  success : Bool
  result : Option JValue
  error : Option PyExn
  metadata : Dict
deriving DecidableEq, Repr

/-- tool_executor.py `Tool`. -/
structure Tool where
  name : String
  func : Dict → Except PyExn JValue
  schema : Schema
  description : String := ""
  examples : List JValue := []

/-- tool_executor.py `Tool.validate_input(params)`: raises
`InvalidToolInputError` carrying the validator's message when the schema
check fails. -/
def Tool.validate_input (t : Tool) (params : Dict) : Except PyExn Unit :=
  if schemaValidate t.schema params then .ok ()
  else .error (.invalidToolInput t.name "schema validation failed")

/-- tool_executor.py `Tool.execute(params)`: validate, then invoke the
executable. An `InvalidToolInputError` (from validation, or raised by the
executable itself) is re-raised; any other exception raised by the
executable is caught and converted to a failed `ToolResult` whose `error`
is the exception object and whose metadata carries the formatted traceback. -/
def Tool.execute (t : Tool) (params : Dict) : Except PyExn ToolResult :=
  match t.validate_input params with
  | .error e => .error e
  | .ok _ =>
      match t.func params with
      | .ok r => .ok { success := true, result := some r, error := none, metadata := [] }
      | .error e =>
          if e.isInvalidToolInput then .error e
          else .ok { success := false, result := none, error := some e,
                     metadata := [("traceback", .str (formatExc e))] }

/-- tool_executor.py `ToolRegistry`, a Python dict from name to tool. -/
structure ToolRegistry where
  tools : List (String × Tool)

/-- Registry lookup (first occurrence; `register` keeps names unique). -/
def toolsGet (d : List (String × Tool)) (k : String) : Option Tool :=
  match d with
  | [] => none
  | (k', v) :: rest => if k' = k then some v else toolsGet rest k

/-- tool_executor.py `ToolRegistry.register(...)`: re-registering a name
replaces the entry in place. -/
def ToolRegistry.register (reg : ToolRegistry) (name : String)
    (func : Dict → Except PyExn JValue) (schema : Schema)
    (description : String := "") (examples : List JValue := []) : ToolRegistry :=
  let tool : Tool := { name := name, func := func, schema := schema,
                       description := description, examples := examples }
  let rec setEntry : List (String × Tool) → List (String × Tool)
    | [] => [(name, tool)]
    | (k, v) :: rest => if k = name then (k, tool) :: rest else (k, v) :: setEntry rest
  { tools := setEntry reg.tools }

/-- tool_executor.py `ToolRegistry.get(name)`: raises `ToolNotFoundError`
when the name is unregistered. -/
def ToolRegistry.get (reg : ToolRegistry) (name : String) : Except PyExn Tool :=
  match toolsGet reg.tools name with
  | none => .error (.toolNotFound name)
  | some t => .ok t

/-- tool_executor.py `ToolRegistry.execute(name, params)`: look the tool up
(propagating `ToolNotFoundError`) and run `Tool.execute`. -/
def ToolRegistry.execute (reg : ToolRegistry) (name : String) (params : Dict) :
    Except PyExn ToolResult :=
  match reg.get name with
  | .error e => .error e
  | .ok t => t.execute params

/-! ### agent.py — action extraction -/

/-- agent.py lines 175-187: normalisation of a parsed action dict, in
statement order — coerce a present non-dict `tool_input` to
`{"text": str(value)}`, then default `tool` to `"answer"`, `tool_input` to
`{}` and `reasoning` to the placeholder when absent. -/
def normFields (fs : Dict) : Dict :=
  let fs := match dictGet fs "tool_input" with
            | some (.obj _) => fs
            | some v => dictSet fs "tool_input" (.obj [("text", .str (pyStr v))])
            | none => fs
  let fs := if dictHas fs "tool" then fs else dictSet fs "tool" (.str "answer")
  let fs := if dictHas fs "tool_input" then fs
            else dictSet fs "tool_input" (.obj [])
  let fs := if dictHas fs "reasoning" then fs
            else dictSet fs "reasoning" (.str "No reasoning provided.")
  fs

/-- agent.py line 194, `except Exception as e`: any exception raised inside
the `try` body of `extract_action` — including the `ParsingError` raised at
line 173 — is re-wrapped as
`ParsingError("Error extracting action: " + str(e), response_text)`. -/
def wrapExtractExn (e : PyExn) (text : String) : PyExn :=
  .parsingError ("Error extracting action: " ++ e.toPyString) text

/-- agent.py `Agent.extract_action(response_text)`:
search for the first delimited action block; when none is found return the
answer fallback; otherwise unconditionally apply single-quote replacement
and trailing-comma stripping to the stripped block contents, parse, retry
once on all-whitespace-stripped contents, and normalise the resulting dict.
A parse of a non-dict JSON value makes the normalisation code raise a
`TypeError` (membership test or item assignment on a non-dict), which the
outer handler wraps into a `ParsingError`. -/
def extract_action (text : String) : Except PyExn Dict :=
  match findActionBlock text with
  | none =>
      .ok [("tool", .str "answer"),
           ("tool_input", .obj [("text", .str (pyStrip text))]),
           ("reasoning", .str "No <action> block found.")]
  | some blk =>
      let aj := subTrailingCommas (replaceQuotes (pyStrip blk))
      let parsed := match jsonParse aj with
                    | some v => some v
                    | none => jsonParse (stripAllWs aj)
      match parsed with
      | none =>
          .error (wrapExtractExn (.parsingError "Failed to parse action JSON" text) text)
      | some (.obj fs) => .ok (normFields fs)
      | some _ =>
          .error (wrapExtractExn
            (.other "TypeError" "argument of type is not iterable") text)

/-! ### agent.py — memory injection -/

/-- First half of agent.py `Agent._inject_memory_into_tool_input` (the
`if tool_name == "sample_polyline" ... elif tool_name in [...] ...` chain):
a recalled value is injected only when the target field is absent and the
recalled value is truthy (`if polyline:` / `if coords:`). -/
def injectRecalled (mem : MemoryStore) (toolName : JValue) (ti : Dict) : Dict :=
  if toolName = .str "sample_polyline" ∧ dictHas ti "encoded_polyline" = false then
    if py_truthyOpt (mem.recall "encoded_polyline") then
      dictSet ti "encoded_polyline" ((mem.recall "encoded_polyline").getD .null)
    else ti
  else if (toolName = .str "get_places" ∨ toolName = .str "get_natural_features"
            ∨ toolName = .str "render_map")
          ∧ dictHas ti "polyline_coords" = false then
    if py_truthyOpt (mem.recall "polyline_coords") then
      dictSet ti "polyline_coords" ((mem.recall "polyline_coords").getD .null)
    else ti
  else ti

/-- Second half of agent.py `Agent._inject_memory_into_tool_input` (the
`if tool_name == "render_map": ...` block): the fixed artifact paths are
injected when the corresponding memory key exists and the path field is
absent. -/
def injectRenderPaths (mem : MemoryStore) (toolName : JValue) (ti : Dict) : Dict :=
  if toolName = .str "render_map" then
    let ti := if mem.has_key "places" ∧ dictHas ti "places_path" = false then
                dictSet ti "places_path" (.str "places_along_route.json")
              else ti
    let ti := if mem.has_key "features" ∧ dictHas ti "features_path" = false then
                dictSet ti "features_path" (.str "natural_features_along_route.json")
              else ti
    ti
  else ti

/-- agent.py `Agent._inject_memory_into_tool_input(tool_name, tool_input)`,
as a pure function on the copied dict: the two halves in statement order. -/
def injectMemory (mem : MemoryStore) (toolName : JValue) (ti0 : Dict) : Dict :=
  injectRenderPaths mem toolName (injectRecalled mem toolName ti0)

/-- A heap of Python dict objects, to make aliasing and in-place mutation
observable: a reference is an index into the heap. -/
abbrev DictHeap := List Dict

/-- Dereference (out-of-range references read as the empty dict; the
theorems only use in-range references). -/
def heapGet (h : DictHeap) (r : Nat) : Dict := h.getD r []

/-- In-place mutation of the dict object at reference `r`. -/
def heapSet (h : DictHeap) (r : Nat) (d : Dict) : DictHeap := h.set r d

/-- agent.py `Agent._inject_memory_into_tool_input` at the heap level:
`tool_input = tool_input.copy()` allocates a fresh dict object initialised
from the caller's; the two statement groups that follow read and item-assign
(`tool_input[...] = ...`) exclusively through the fresh reference `w`, so
each group is one read-modify-write of the cell at `w`. Returns the final
heap and the reference to the returned dict. -/
def injectMemoryH (mem : MemoryStore) (toolName : JValue) (h : DictHeap)
    (r : Nat) : DictHeap × Nat :=
  let w := h.length
  let h := h ++ [heapGet h r]
  let h := heapSet h w (injectRecalled mem toolName (heapGet h w))
  let h := heapSet h w (injectRenderPaths mem toolName (heapGet h w))
  (h, w)

/-! ### agent.py — result handling and the reasoning loop -/

/-- agent.py `Agent._update_memory_from_tool_result(tool_name, result)`:
the static result-to-memory rule table, applied only on success. -/
def update_memory_from_tool_result (mem : MemoryStore) (toolName : JValue)
    (result : Option JValue) (now : Nat) : MemoryStore :=
  if toolName = .str "get_route" then
    match result with
    | some (.obj r) =>
        let mem := match dictGet r "polyline" with
                   | some v => mem.remember "encoded_polyline" v none now
                   | none => mem
        match dictGet r "polyline_coords" with
        | some v => mem.remember "polyline_coords" v none now
        | none => mem
    | _ => mem
  else if toolName = .str "sample_polyline" then
    match result with
    | some (.arr xs) => mem.remember "polyline_coords" (.arr xs) none now
    | _ => mem
  else if toolName = .str "get_places" then
    match result with
    | some (.arr xs) => mem.remember "places" (.arr xs) none now
    | _ => mem
  else if toolName = .str "get_natural_features" then
    match result with
    | some (.arr xs) => mem.remember "features" (.arr xs) none now
    | _ => mem
  else mem

/-- Is this value a Python dict? -/
def isObjVal : JValue → Bool
  | .obj _ => true
  | _ => false

/-- One line of the list-of-dicts sample: `", ".join(f"{k}: {v}" ...)`. -/
def objSampleLine : Dict → String
  | [] => ""
  | [(k, v)] => k ++ ": " ++ pyStr v
  | (k, v) :: fs => k ++ ": " ++ pyStr v ++ ", " ++ objSampleLine fs

/-- Newline-joined list of strings (`"\n".join`). -/
def joinLines : List String → String
  | [] => ""
  | [x] => x
  | x :: xs => x ++ "\n" ++ joinLines xs

/-- agent.py `Agent.format_tool_result(tool_name, result)`. For a list
result whose first sampled element is a dict, the comprehension calls
`.items()` on every sampled element, so a mixed sample raises an
`AttributeError` that propagates to the caller; this is the one failure
path, hence the `Except` return. -/
def format_tool_result (toolName : JValue) (r : ToolResult) :
    Except PyExn String :=
  let nm := pyStr toolName
  if r.success = false then
    .ok ("Error executing tool '" ++ nm ++ "': " ++
         (match r.error with
          | some e => e.toPyString
          | none => "None"))
  else
    match r.result.getD .null with
    | .arr [] => .ok ("Tool '" ++ nm ++ "' returned an empty list.")
    | .arr (x :: xs) =>
        let sample := (x :: xs).take 3
        let header := "Tool '" ++ nm ++ "' returned " ++
          toString (x :: xs).length ++ " items. Here's a sample:\n"
        if isObjVal x then
          if sample.all isObjVal then
            .ok (header ++ joinLines (sample.map (fun v =>
              match v with
              | .obj fs => objSampleLine fs
              | _ => "")))
          else .error (.other "AttributeError" "items")
        else
          .ok (header ++ joinLines (sample.map pyStr))
    | .obj fs =>
        .ok ("Tool '" ++ nm ++ "' returned:\n" ++
             joinLines (fs.map (fun p => p.1 ++ ": " ++ pyStr p.2)))
    | v => .ok ("Tool '" ++ nm ++ "' returned: " ++ pyStr v)

/-- agent.py `Agent.execute_action(action)`: read `tool` and `tool_input`
with their defaults, inject memory, dispatch through the registry, fold a
successful result into keyed memory, and convert the two exception families
into failed `ToolResult`s (`ToolNotFoundError` kept as-is, anything else
wrapped in a `ToolExecutionError`). Never raises. -/
def execute_action (reg : ToolRegistry) (mem : MemoryStore) (action : Dict)
    (now : Nat) : ToolResult × MemoryStore :=
  let toolName := (dictGet action "tool").getD (.str "answer")
  let toolInput := (dictGet action "tool_input").getD (.obj [])
  match toolInput with
  | .obj ti =>
      let injected := injectMemory mem toolName ti
      let execResult : Except PyExn ToolResult :=
        match toolName with
        | .str s => ToolRegistry.execute reg s injected
        | _ =>
            -- a non-string tool name is not a key of the registry dict,
            -- so `get` raises ToolNotFoundError (stringified name)
            .error (.toolNotFound (pyStr toolName))
      match execResult with
      | .ok r =>
          let mem' := if r.success then
                        update_memory_from_tool_result mem toolName r.result now
                      else mem
          (r, mem')
      | .error e =>
          match e with
          | .toolNotFound _ =>
              ({ success := false, result := none, error := some e,
                 metadata := [("tool_name", toolName), ("tool_input", .obj injected)] },
               mem)
          | _ =>
              ({ success := false, result := none,
                 error := some (.toolExecutionError (pyStr toolName)
                   e.toPyString e.typeName),
                 metadata := [("tool_name", toolName), ("tool_input", .obj injected)] },
               mem)
  | _ =>
      -- `tool_input.copy()` on a non-dict raises AttributeError, caught by
      -- the generic handler; metadata still holds the original tool_input
      ({ success := false, result := none,
         error := some (.toolExecutionError (pyStr toolName)
           "AttributeError: copy" "AttributeError"),
         metadata := [("tool_name", toolName), ("tool_input", toolInput)] },
       mem)

/-- The LLM capability consumed by the orchestrator (llm_client.py): an
availability flag and the text content obtained from one (possibly
streamed-and-drained) chat call. The `Nat` argument is the index of the
call within one `process_query`, so that a stateful scripted backend is
expressible; the message list is the context sent. -/
structure LLM where
  available : Bool
  chat : Nat → List (String × JValue) → String

/-- The agent configuration fields of agent.py `Agent.__init__` that the
reasoning loop reads. -/
structure AgentCfg where
  registry : ToolRegistry
  system_prompt : String
  max_iterations : Nat

/-- agent.py lines 377-378 and 408-409: system prompt followed by the
conversation history in LLM format. -/
def buildContext (cfg : AgentCfg) (mem : MemoryStore) : List (String × JValue) :=
  ("system", .str cfg.system_prompt) :: mem.get_conversation_history

/-- agent.py lines 427-429: the final answer is the action's
`tool_input["text"]` when truthy, else the fixed fallback string. -/
def finalizeAnswer (ti : Dict) : JValue :=
  let fa := (dictGet ti "text").getD (.str "")
  if py_truthy fa then fa else .str "I couldn't determine an answer to your query."

/-- The reasoning loop of agent.py `process_query` (lines 395-424), with
`fuel = max_iterations - iterations` remaining loop entries. Reading
`action["tool"]` on a dict lacking the key would raise `KeyError`
(normalisation makes that impossible for extracted actions). A
`ParsingError` from `extract_action` and an `AttributeError` from
`format_tool_result` propagate: the loop catches nothing. -/
def queryLoop (cfg : AgentCfg) (llm : LLM) (now : Nat) :
    Nat → Nat → Dict → MemoryStore → Except PyExn (Dict × MemoryStore)
  | fuel, callIdx, action, mem =>
    match dictGet action "tool" with
    | none => .error (.other "KeyError" "tool")
    | some t =>
        if t = .str "answer" then .ok (action, mem)
        else
          match fuel with
          | 0 => .ok (action, mem)
          | fuel' + 1 =>
              let step := execute_action cfg.registry mem action now
              match format_tool_result t step.1 with
              | .error e => .error e
              | .ok resultStr =>
                  let mem2 := step.2.add_message "assistant"
                    (.str ("Observation: " ++ resultStr)) none now
                  let response := llm.chat callIdx (buildContext cfg mem2)
                  match extract_action response with
                  | .error e => .error e
                  | .ok action' => queryLoop cfg llm now fuel' (callIdx + 1) action' mem2

/-- agent.py `Agent.process_query(query)` (the `stream=True` path drains
`stream_chat` into one string first, which the `LLM.chat` model already
covers). Returns the final answer value and the resulting memory store, or
the propagated exception. -/
def process_query (cfg : AgentCfg) (llm : LLM) (mem0 : MemoryStore)
    (query : String) (now : Nat) : Except PyExn (JValue × MemoryStore) :=
  if llm.available = false then .ok (.str "LLM client is not available.", mem0)
  else
    let mem := mem0.add_message "user" (.str query) none now
    let response := llm.chat 0 (buildContext cfg mem)
    match extract_action response with
    | .error e => .error e
    | .ok action =>
        match queryLoop cfg llm now cfg.max_iterations 1 action mem with
        | .error e => .error e
        | .ok (action, mem) =>
            match (dictGet action "tool_input").getD (.obj []) with
            | .obj ti =>
                let fa := finalizeAnswer ti
                let mem := mem.add_message "assistant" fa none now
                .ok (fa, mem)
            | _ =>
                -- `.get("text", "")` on a non-dict raises AttributeError
                .error (.other "AttributeError" "get")

/-! ## Helper lemmas -/

theorem dictGet_dictSet_self (d : Dict) (k : String) (v : JValue) :
    dictGet (dictSet d k v) k = some v := by
  induction d with
  | nil => simp [dictSet, dictGet]
  | cons p rest ih =>
      obtain ⟨k', v'⟩ := p
      by_cases h : k' = k <;> simp [dictSet, dictGet, h, ih]

theorem dictGet_dictSet_ne (d : Dict) (k k' : String) (v : JValue)
    (h : k' ≠ k) : dictGet (dictSet d k v) k' = dictGet d k' := by
  have h' : ¬ k = k' := fun hh => h hh.symm
  induction d with
  | nil => simp [dictSet, dictGet, h']
  | cons p rest ih =>
      obtain ⟨k₀, v₀⟩ := p
      by_cases h₀ : k₀ = k
      · subst h₀
        simp [dictSet, dictGet, h']
      · by_cases h₁ : k₀ = k' <;> simp [dictSet, dictGet, h₀, h₁, h, h', ih]

theorem dictHas_eq_isSome (d : Dict) (k : String) :
    dictHas d k = (dictGet d k).isSome := by
  induction d with
  | nil => simp [dictHas, dictGet]
  | cons p rest ih =>
      obtain ⟨k', v'⟩ := p
      by_cases h : k' = k <;> simp [dictHas, dictGet, h, ih]

theorem dictHas_dictSet (d : Dict) (k k' : String) (v : JValue) :
    dictHas (dictSet d k v) k' = (decide (k' = k) || dictHas d k') := by
  by_cases hk : k' = k
  · subst hk
    rw [dictHas_eq_isSome, dictGet_dictSet_self]
    simp
  · rw [dictHas_eq_isSome, dictGet_dictSet_ne _ _ _ _ hk, ← dictHas_eq_isSome]
    simp [hk]

/-- The keys of a metadata dict, pairwise distinct for real Python dicts. -/
def keysNodup (d : Dict) : Prop := (d.map Prod.fst).Nodup

theorem dictGet_eq_none_of_not_mem (d : Dict) (k : String)
    (h : k ∉ d.map Prod.fst) : dictGet d k = none := by
  induction d with
  | nil => simp [dictGet]
  | cons p rest ih =>
      obtain ⟨k', v'⟩ := p
      simp only [List.map_cons, List.mem_cons] at h
      push_neg at h
      have hne : ¬ k' = k := fun hh => h.1 hh.symm
      simp [dictGet, hne, ih h.2]

theorem dictGet_dictUpdate_of_none (d u : Dict) (k : String)
    (h : dictGet u k = none) : dictGet (dictUpdate d u) k = dictGet d k := by
  induction u generalizing d with
  | nil => simp [dictUpdate]
  | cons p rest ih =>
      obtain ⟨k', v'⟩ := p
      simp only [dictGet] at h
      by_cases hk : k' = k
      · simp [hk] at h
      · simp only [dictUpdate]
        rw [ih _ (by simpa [hk] using h), dictGet_dictSet_ne _ _ _ _ (fun hh => hk hh.symm)]

theorem dictGet_dictUpdate_of_some (d u : Dict) (k : String) (v : JValue)
    (hnd : keysNodup u) (h : dictGet u k = some v) :
    dictGet (dictUpdate d u) k = some v := by
  induction u generalizing d with
  | nil => simp [dictGet] at h
  | cons p rest ih =>
      obtain ⟨k', v'⟩ := p
      simp only [keysNodup, List.map_cons, List.nodup_cons] at hnd
      simp only [dictGet] at h
      by_cases hk : k' = k
      · subst hk
        rw [if_pos rfl] at h
        injection h with h
        subst h
        simp only [dictUpdate]
        rw [dictGet_dictUpdate_of_none _ _ _
              (dictGet_eq_none_of_not_mem _ _ hnd.1),
            dictGet_dictSet_self]
      · rw [if_neg hk] at h
        simp only [dictUpdate]
        exact ih (dictSet d k' v') hnd.2 h

/-! Lemmas on the keyed store. -/

theorem itemHas_eq_isSome (d : List (String × MemoryItem)) (k : String) :
    itemHas d k = (itemGet d k).isSome := by
  induction d with
  | nil => simp [itemHas, itemGet]
  | cons p rest ih =>
      obtain ⟨k', v'⟩ := p
      by_cases h : k' = k <;> simp [itemHas, itemGet, h, ih]

theorem itemGet_append (a b : List (String × MemoryItem)) (k : String) :
    itemGet (a ++ b) k = ((itemGet a k).elim (itemGet b k) some) := by
  induction a with
  | nil => simp [itemGet]
  | cons p rest ih =>
      obtain ⟨k', v'⟩ := p
      by_cases h : k' = k <;> simp [itemGet, h, ih]

theorem itemHas_append (a b : List (String × MemoryItem)) (k : String) :
    itemHas (a ++ b) k = (itemHas a k || itemHas b k) := by
  induction a with
  | nil => simp [itemHas]
  | cons p rest ih =>
      obtain ⟨k', v'⟩ := p
      by_cases h : k' = k <;> simp [itemHas, h, ih]

theorem itemGet_itemModify_self (d : List (String × MemoryItem)) (k : String)
    (f : MemoryItem → MemoryItem) :
    itemGet (itemModify d k f) k = (itemGet d k).map f := by
  induction d with
  | nil => simp [itemModify, itemGet]
  | cons p rest ih =>
      obtain ⟨k', v'⟩ := p
      by_cases h : k' = k <;> simp [itemModify, itemGet, h, ih]

/-! Lemmas on the sliding window of `ConversationHistory.add`. -/

/-- The last `m` elements of a message list (plain suffix, no Python
slice quirk). -/
def takeLastN (m : Nat) (l : List Message) : List Message :=
  l.drop (l.length - m)

theorem takeLastN_length (m : Nat) (l : List Message) :
    (takeLastN m l).length = l.length - (l.length - m) := by
  simp [takeLastN]

theorem takeLastN_of_le (m : Nat) (l : List Message) (h : l.length ≤ m) :
    takeLastN m l = l := by
  simp [takeLastN, Nat.sub_eq_zero_of_le h]

theorem takeLastN_idem_append (m : Nat) (A B : List Message) :
    takeLastN m (takeLastN m A ++ B) = takeLastN m (A ++ B) := by
  unfold takeLastN
  rw [List.length_append, List.length_drop, List.length_append,
      ← List.drop_append_of_le_length (by omega), List.drop_drop]
  congr 1
  omega

/-- One `add` call: for a positive bound, the stored messages are always the
last `max_messages` of the appended list. -/
theorem ConversationHistory.add_messages (h : ConversationHistory)
    (role : String) (content : JValue) (md : Option Dict) (now : Nat)
    (hpos : 1 ≤ h.max_messages) :
    (h.add role content md now).messages =
      takeLastN h.max_messages (h.messages ++ [Message.init role content md now]) := by
  unfold ConversationHistory.add
  by_cases hlen : (h.messages ++ [Message.init role content md now]).length > h.max_messages
  · simp only [if_pos hlen]
    unfold pySliceLast takeLastN
    rw [if_neg (by omega)]
  · simp only [if_neg hlen]
    rw [takeLastN_of_le _ _ (by omega)]

theorem ConversationHistory.add_max (h : ConversationHistory)
    (role : String) (content : JValue) (md : Option Dict) (now : Nat) :
    (h.add role content md now).max_messages = h.max_messages := by
  unfold ConversationHistory.add
  by_cases hlen :
      (h.messages ++ [Message.init role content md now]).length > h.max_messages
  · simp only [if_pos hlen]
  · simp only [if_neg hlen]

/-- One `add_message` call of the orchestrator, as data. -/
structure AddCall where
  role : String
  content : JValue
  metadata : Option Dict
  now : Nat

/-- The message a call constructs. -/
def AddCall.message (c : AddCall) : Message :=
  Message.init c.role c.content c.metadata c.now

/-- A whole sequence of `add` calls. -/
def ConversationHistory.addAll (h : ConversationHistory)
    (calls : List AddCall) : ConversationHistory :=
  calls.foldl (fun h c => h.add c.role c.content c.metadata c.now) h

theorem ConversationHistory.addAll_messages (calls : List AddCall) :
    ∀ (h : ConversationHistory), 1 ≤ h.max_messages →
      h.messages.length ≤ h.max_messages →
      (h.addAll calls).messages =
        takeLastN h.max_messages (h.messages ++ calls.map AddCall.message)
      ∧ (h.addAll calls).max_messages = h.max_messages := by
  induction calls with
  | nil =>
      intro h hpos hlen
      simp only [ConversationHistory.addAll, List.foldl_nil, List.map_nil,
        List.append_nil]
      exact ⟨(takeLastN_of_le _ _ hlen).symm, trivial⟩
  | cons c rest ih =>
      intro h hpos hlen
      have hstep := ConversationHistory.add_messages h c.role c.content c.metadata c.now hpos
      have hmax := ConversationHistory.add_max h c.role c.content c.metadata c.now
      have hlen' : (h.add c.role c.content c.metadata c.now).messages.length ≤
          (h.add c.role c.content c.metadata c.now).max_messages := by
        rw [hstep, hmax, takeLastN_length]
        omega
      have := ih (h.add c.role c.content c.metadata c.now)
        (by rw [hmax]; exact hpos) hlen'
      simp only [ConversationHistory.addAll, List.foldl_cons] at this ⊢
      rw [this.1, hstep, hmax, takeLastN_idem_append, List.append_assoc]
      exact ⟨rfl, by rw [this.2, hmax]⟩

/-! ## Claim C2 — sliding-window conversation history -/

/-- C2 (amended): for every positive bound `max_messages` and every
sequence of `add` calls on a fresh conversation history, after the whole
sequence the stored list is exactly the suffix of the call sequence made of
the most recent `max_messages` messages in original order, and its length
never exceeds the bound. (For `max_messages = 0` the claim fails, because
the trimming slice `messages[-0:]` is the whole list — see the
counterexample.) -/
theorem conversation_sliding_window (m : Nat) (calls : List AddCall)
    (hm : 1 ≤ m) :
    ((ConversationHistory.init m).addAll calls).messages
      = takeLastN m (calls.map AddCall.message)
    ∧ ((ConversationHistory.init m).addAll calls).messages.length ≤ m := by
  have h := ConversationHistory.addAll_messages calls (ConversationHistory.init m)
    (by simpa [ConversationHistory.init] using hm)
    (by simp [ConversationHistory.init])
  simp only [ConversationHistory.init, List.nil_append] at h ⊢
  refine ⟨h.1, ?_⟩
  rw [h.1]
  simp only [takeLastN_length]
  omega

/-- Witness for C2: three calls against a bound of 2 retain exactly the two
most recent messages. -/
theorem conversation_sliding_window_witness :
    (1 ≤ 2)
    ∧ ((ConversationHistory.init 2).addAll
        [⟨"user", .str "a", none, 0⟩, ⟨"user", .str "b", none, 1⟩,
         ⟨"user", .str "c", none, 2⟩]).messages
      = takeLastN 2 ([⟨"user", .str "a", none, 0⟩, ⟨"user", .str "b", none, 1⟩,
         ⟨"user", .str "c", none, 2⟩].map AddCall.message) :=
  ⟨by decide,
   (conversation_sliding_window 2
     [⟨"user", .str "a", none, 0⟩, ⟨"user", .str "b", none, 1⟩,
      ⟨"user", .str "c", none, 2⟩] (by decide)).1⟩

/-- Counterexample for C2 as stated: with `max_messages = 0` a single `add`
leaves one stored message, so the stored length exceeds the configured
maximum (`messages[-0:]` is the whole list, not the empty suffix). -/
theorem conversation_sliding_window_cex :
    (((ConversationHistory.init 0).add "user" (.str "x") none 0).messages.length = 1)
    ∧ ¬ (((ConversationHistory.init 0).add "user" (.str "x") none 0).messages.length ≤ 0) := by
  constructor
  · rfl
  · decide

/-! ## Claim C7 — fallback action when no block is present -/

/-- C7 (amended): for every reply text containing no delimited action
block, `extract_action` returns the answer triple with the trimmed full
text, with reasoning string `"No <action> block found."` (the code's actual
string; the claim's `"No structured action found."` does not occur in the
code — see the counterexample). -/
theorem extract_action_no_block (text : String)
    (h : findActionBlock text = none) :
    extract_action text = .ok
      [("tool", .str "answer"),
       ("tool_input", .obj [("text", .str (pyStrip text))]),
       ("reasoning", .str "No <action> block found.")] := by
  unfold extract_action
  rw [h]

/-- Witness for C7: a block-free reply produces the answer fallback. -/
theorem extract_action_no_block_witness :
    findActionBlock "just an answer" = none
    ∧ extract_action "just an answer" = .ok
        [("tool", .str "answer"),
         ("tool_input", .obj [("text", .str (pyStrip "just an answer"))]),
         ("reasoning", .str "No <action> block found.")] :=
  ⟨rfl, extract_action_no_block "just an answer" rfl⟩

/-- Counterexample for C7 as stated: the reasoning string the code emits is
`"No <action> block found."`, not the claim's `"No structured action found."`. -/
theorem extract_action_no_block_cex :
    dictGet ((extract_action "just an answer").toOption.getD []) "reasoning"
      = some (.str "No <action> block found.")
    ∧ (JValue.str "No <action> block found.")
      ≠ .str "No structured action found." := by
  constructor
  · rfl
  · decide

/-! ## Claim C10 — unavailable LLM client -/

/-- C10 (confirmed): whenever the LLM client reports unavailable,
`process_query` immediately returns the fixed string
`"LLM client is not available."` and the memory store (conversation history
and keyed data alike) is returned exactly as it was: the user query is not
appended, and no LLM call or tool execution can have occurred since the
function returns before reaching them. -/
theorem process_query_unavailable (cfg : AgentCfg) (llm : LLM)
    (mem : MemoryStore) (q : String) (now : Nat)
    (h : llm.available = false) :
    process_query cfg llm mem q now
      = .ok (.str "LLM client is not available.", mem) := by
  unfold process_query
  rw [h]
  rfl

/-- Witness for C10: a concrete unavailable client. -/
theorem process_query_unavailable_witness :
    ({ available := false, chat := fun _ _ => "" } : LLM).available = false
    ∧ process_query
        { registry := { tools := [] }, system_prompt := "sp", max_iterations := 3 }
        { available := false, chat := fun _ _ => "" }
        (MemoryStore.init 100) "hello" 0
      = .ok (.str "LLM client is not available.", MemoryStore.init 100) :=
  ⟨rfl,
   process_query_unavailable
     { registry := { tools := [] }, system_prompt := "sp", max_iterations := 3 }
     { available := false, chat := fun _ _ => "" }
     (MemoryStore.init 100) "hello" 0 rfl⟩

/-! ## Claim C1 — registry behaviour on executable exceptions -/

/-- The concrete tools used to witness and refute C1: one whose executable
raises a `ValueError`, one whose executable raises an
`InvalidToolInputError` itself. -/
def toolRaising : Tool :=
  { name := "t", func := fun _ => .error (.other "ValueError" "boom"),
    schema := { properties := [], required := [] } }

/-- A tool whose executable raises `InvalidToolInputError`. -/
def toolRaisingInvalid : Tool :=
  { name := "u", func := fun _ => .error (.invalidToolInput "u" "from inside"),
    schema := { properties := [], required := [] } }

/-- The registry containing the two tools above. -/
def regRaising : ToolRegistry :=
  { tools := [("t", toolRaising), ("u", toolRaisingInvalid)] }

/-- C1 (amended): for every registered tool and validated input, when the
executable raises an exception `e`, `ToolRegistry.execute` returns — does
not raise — a failed `ToolResult` whose `error` field is the raised
exception object itself (not a `ToolExecutionError` wrapper) and whose
metadata carries the formatted traceback, unless `e` is an
`InvalidToolInputError`, which is the one executable exception `execute`
re-raises. -/
theorem registry_execute_exception_handling (reg : ToolRegistry)
    (name : String) (t : Tool) (params : Dict) (e : PyExn)
    (hget : toolsGet reg.tools name = some t)
    (hval : t.validate_input params = .ok ())
    (hfun : t.func params = .error e) :
    (e.isInvalidToolInput = false →
      ToolRegistry.execute reg name params
        = .ok { success := false, result := none, error := some e,
                metadata := [("traceback", .str (formatExc e))] })
    ∧ (e.isInvalidToolInput = true →
      ToolRegistry.execute reg name params = .error e) := by
  unfold ToolRegistry.execute ToolRegistry.get Tool.execute
  rw [hget]
  dsimp only
  rw [hval, hfun]
  constructor
  · intro hin
    dsimp only
    rw [hin]
    rfl
  · intro hin
    dsimp only
    rw [hin]
    rfl

/-- Witness for C1: the `ValueError`-raising tool yields the failed result
carrying the raw exception. -/
theorem registry_execute_exception_handling_witness :
    toolsGet regRaising.tools "t" = some toolRaising
    ∧ toolRaising.validate_input [] = .ok ()
    ∧ toolRaising.func [] = .error (.other "ValueError" "boom")
    ∧ ToolRegistry.execute regRaising "t" []
        = .ok { success := false, result := none,
                error := some (.other "ValueError" "boom"),
                metadata := [("traceback",
                  .str (formatExc (.other "ValueError" "boom")))] } :=
  ⟨rfl, rfl, rfl,
   (registry_execute_exception_handling regRaising "t" toolRaising []
     (.other "ValueError" "boom") rfl rfl rfl).1 rfl⟩

/-- Counterexample for C1 as stated: the returned `error` is the raised
`ValueError` itself, not a `ToolExecutionError`; and an
`InvalidToolInputError` raised inside the executable does propagate out of
`execute`. -/
theorem registry_execute_exception_handling_cex :
    ToolRegistry.execute regRaising "t" []
      = .ok { success := false, result := none,
              error := some (.other "ValueError" "boom"),
              metadata := [("traceback",
                .str (formatExc (.other "ValueError" "boom")))] }
    ∧ (PyExn.other "ValueError" "boom").isToolExecutionError = false
    ∧ ToolRegistry.execute regRaising "u" []
        = .error (.invalidToolInput "u" "from inside") :=
  ⟨rfl, rfl, rfl⟩

/-! ## Claim C6 — memory injection into tool inputs -/

theorem dictSet_preserves_get (d : Dict) (k k' : String) (v : JValue)
    (hk : dictHas d k = true) (hk' : dictHas d k' = false) :
    dictGet (dictSet d k' v) k = dictGet d k
    ∧ dictHas (dictSet d k' v) k = true := by
  have hne : k ≠ k' := by
    intro he
    rw [he, hk'] at hk
    cases hk
  exact ⟨dictGet_dictSet_ne _ _ _ _ hne,
    by rw [dictHas_dictSet]; simp [hk]⟩

theorem some_getD_of_truthy (o : Option JValue) (h : py_truthyOpt o = true) :
    some (o.getD .null) = o := by
  cases o with
  | none => simp [py_truthyOpt] at h
  | some v => rfl

theorem dictGet_eq_none_of_has_false (d : Dict) (k : String)
    (h : dictHas d k = false) : dictGet d k = none := by
  rw [dictHas_eq_isSome] at h
  exact Option.not_isSome_iff_eq_none.mp (by simp [h])

theorem injectRecalled_preserves (mem : MemoryStore) (tn : JValue) (ti : Dict)
    (k : String) (hk : dictHas ti k = true) :
    dictGet (injectRecalled mem tn ti) k = dictGet ti k
    ∧ dictHas (injectRecalled mem tn ti) k = true := by
  unfold injectRecalled
  split_ifs with h1 h2 h3 h4
  · exact dictSet_preserves_get ti k _ _ hk h1.2
  · exact ⟨rfl, hk⟩
  · exact dictSet_preserves_get ti k _ _ hk h3.2
  · exact ⟨rfl, hk⟩
  · exact ⟨rfl, hk⟩

theorem injectRenderPaths_preserves (mem : MemoryStore) (tn : JValue) (ti : Dict)
    (k : String) (hk : dictHas ti k = true) :
    dictGet (injectRenderPaths mem tn ti) k = dictGet ti k
    ∧ dictHas (injectRenderPaths mem tn ti) k = true := by
  unfold injectRenderPaths
  dsimp only
  split_ifs with h1 h2 h3 h4
  · have s1 := dictSet_preserves_get ti k _ (.str "places_along_route.json") hk h2.2
    have s2 := dictSet_preserves_get _ k _ (.str "natural_features_along_route.json")
      s1.2 h3.2
    exact ⟨s2.1.trans s1.1, s2.2⟩
  · exact dictSet_preserves_get ti k _ _ hk h2.2
  · exact dictSet_preserves_get ti k _ _ hk h4.2
  · exact ⟨rfl, hk⟩
  · exact ⟨rfl, hk⟩

/-- C6 (amended): the injector never overwrites a field the caller supplied;
for `get_places` (and the other `polyline_coords` consumers) with the field
absent, the field is set to the recalled `polyline_coords` value exactly
when that recalled value is truthy — a key present in keyed memory with a
falsy value (empty list, empty string, `None`, `0`) is not injected, and an
absent key leaves the field missing; symmetrically for `sample_polyline`
and `encoded_polyline`. -/
theorem inject_memory_characterisation (mem : MemoryStore) (tn : JValue)
    (ti : Dict) (k : String) :
    (dictHas ti k = true →
      dictGet (injectMemory mem tn ti) k = dictGet ti k)
    ∧ (tn = .str "get_places" → dictHas ti "polyline_coords" = false →
      dictGet (injectMemory mem tn ti) "polyline_coords"
        = if py_truthyOpt (mem.recall "polyline_coords") then
            mem.recall "polyline_coords"
          else none)
    ∧ (tn = .str "sample_polyline" → dictHas ti "encoded_polyline" = false →
      dictGet (injectMemory mem tn ti) "encoded_polyline"
        = if py_truthyOpt (mem.recall "encoded_polyline") then
            mem.recall "encoded_polyline"
          else none) := by
  refine ⟨?_, ?_, ?_⟩
  · intro hk
    unfold injectMemory
    have s1 := injectRecalled_preserves mem tn ti k hk
    have s2 := injectRenderPaths_preserves mem tn (injectRecalled mem tn ti) k s1.2
    exact s2.1.trans s1.1
  · intro htn hk
    subst htn
    unfold injectMemory injectRenderPaths injectRecalled
    rw [if_neg (show ¬ (JValue.str "get_places" = .str "render_map") by decide),
        if_neg (show ¬ (JValue.str "get_places" = .str "sample_polyline"
            ∧ dictHas ti "encoded_polyline" = false) from
          fun hcon => absurd hcon.1 (by decide)),
        if_pos ⟨Or.inl rfl, hk⟩]
    by_cases ht : py_truthyOpt (mem.recall "polyline_coords") = true
    · rw [if_pos ht, if_pos ht, dictGet_dictSet_self,
          some_getD_of_truthy _ ht]
    · rw [if_neg ht, if_neg ht]
      exact dictGet_eq_none_of_has_false ti _ hk
  · intro htn hk
    subst htn
    unfold injectMemory injectRenderPaths injectRecalled
    rw [if_neg (show ¬ (JValue.str "sample_polyline" = .str "render_map") by decide),
        if_pos ⟨rfl, hk⟩]
    by_cases ht : py_truthyOpt (mem.recall "encoded_polyline") = true
    · rw [if_pos ht, if_pos ht, dictGet_dictSet_self,
          some_getD_of_truthy _ ht]
    · rw [if_neg ht, if_neg ht]
      exact dictGet_eq_none_of_has_false ti _ hk

/-- A store whose keyed memory holds `polyline_coords = [[1,2],[3,4]]`,
the spec's injector scenario. -/
def memWithCoords : MemoryStore :=
  (MemoryStore.init 100).remember "polyline_coords"
    (.arr [.arr [.num 1, .num 2], .arr [.num 3, .num 4]]) none 0

/-- Witness for C6: with `polyline_coords = [[1,2],[3,4]]` in memory, an
explicitly supplied field is preserved, and a missing field is filled with
the recalled value. -/
theorem inject_memory_characterisation_witness :
    dictHas ([("polyline_coords", .arr [.arr [.num 9, .num 9]])] : Dict)
        "polyline_coords" = true
    ∧ dictGet (injectMemory memWithCoords (.str "get_places")
          [("polyline_coords", .arr [.arr [.num 9, .num 9]])]) "polyline_coords"
        = dictGet [("polyline_coords", .arr [.arr [.num 9, .num 9]])] "polyline_coords"
    ∧ dictHas ([] : Dict) "polyline_coords" = false
    ∧ dictGet (injectMemory memWithCoords (.str "get_places") []) "polyline_coords"
        = (if py_truthyOpt (memWithCoords.recall "polyline_coords") then
             memWithCoords.recall "polyline_coords"
           else none) :=
  ⟨rfl,
   (inject_memory_characterisation memWithCoords (.str "get_places")
     [("polyline_coords", .arr [.arr [.num 9, .num 9]])] "polyline_coords").1 rfl,
   rfl,
   (inject_memory_characterisation memWithCoords (.str "get_places")
     [] "polyline_coords").2.1 rfl rfl⟩

/-- A store whose keyed memory holds `polyline_coords` with a falsy value
(the empty list). -/
def memWithFalsyCoords : MemoryStore :=
  (MemoryStore.init 100).remember "polyline_coords" (.arr []) none 0

/-- Counterexample for C6 as stated: the memory key `polyline_coords` is
present and the field is absent from the input, yet no injection happens,
because the code guards on truthiness (`if coords:`) rather than presence. -/
theorem inject_memory_characterisation_cex :
    memWithFalsyCoords.has_key "polyline_coords" = true
    ∧ dictHas ([] : Dict) "polyline_coords" = false
    ∧ dictGet (injectMemory memWithFalsyCoords (.str "get_places") [])
        "polyline_coords" = none :=
  ⟨rfl, rfl, rfl⟩

/-! ## Claim C9 — the injector does not mutate the caller's dict -/

theorem heapGet_append_lt : ∀ (h : DictHeap) (r : Nat), r < h.length →
    ∀ d, heapGet (h ++ [d]) r = heapGet h r
  | [], r, hr, _ => absurd hr (by simp)
  | _ :: _, 0, _, _ => rfl
  | _ :: hs, r + 1, hr, d => heapGet_append_lt hs r (by simpa using hr) d

theorem heapGet_append_self : ∀ (h : DictHeap) (d : Dict),
    heapGet (h ++ [d]) h.length = d
  | [], _ => rfl
  | _ :: hs, d => heapGet_append_self hs d

theorem heapGet_set_self : ∀ (h : DictHeap) (r : Nat), r < h.length →
    ∀ d, heapGet (heapSet h r d) r = d
  | [], r, hr, _ => absurd hr (by simp)
  | _ :: _, 0, _, _ => rfl
  | _ :: hs, r + 1, hr, d => heapGet_set_self hs r (by simpa using hr) d

theorem heapGet_set_ne : ∀ (h : DictHeap) (r w : Nat), r ≠ w →
    ∀ d, heapGet (heapSet h w d) r = heapGet h r
  | [], _, _, _, _ => rfl
  | _ :: _, 0, 0, hne, _ => absurd rfl hne
  | _ :: _, 0, _ + 1, _, _ => rfl
  | _ :: _, _ + 1, 0, _, _ => rfl
  | _ :: hs, r + 1, w + 1, hne, d =>
      heapGet_set_ne hs r w (fun hh => hne (congrArg Nat.succ hh)) d

/-- C9 (confirmed): the injector allocates a fresh dict (`tool_input.copy()`
is its first statement) and writes only through the fresh reference: the
caller's dict object is unchanged by the call, the returned reference is a
different object, and the returned object holds exactly the pure injection
result computed from the caller's dict. -/
theorem inject_does_not_mutate_caller (mem : MemoryStore) (tn : JValue)
    (h : DictHeap) (r : Nat) (hr : r < h.length) :
    heapGet (injectMemoryH mem tn h r).1 r = heapGet h r
    ∧ (injectMemoryH mem tn h r).2 ≠ r
    ∧ heapGet (injectMemoryH mem tn h r).1 (injectMemoryH mem tn h r).2
        = injectMemory mem tn (heapGet h r) := by
  unfold injectMemoryH
  dsimp only
  have hlen1 : (h ++ [heapGet h r]).length = h.length + 1 := by simp
  have hne : r ≠ h.length := by omega
  refine ⟨?_, fun he => hne he.symm, ?_⟩
  · rw [heapGet_set_ne _ _ _ hne, heapGet_set_ne _ _ _ hne,
        heapGet_append_lt _ _ hr]
  · rw [heapGet_set_self _ _ (by simp [heapSet, hlen1])]
    rw [heapGet_set_self _ _ (by simp [hlen1])]
    rw [heapGet_append_self]
    rfl

/-- Witness for C9: a one-object heap; after injection the caller's dict is
untouched and the result object holds the injected dict. -/
theorem inject_does_not_mutate_caller_witness :
    (0 : Nat) < ([[("x", JValue.num 7)]] : DictHeap).length
    ∧ heapGet (injectMemoryH memWithCoords (.str "get_places")
        [[("x", JValue.num 7)]] 0).1 0 = [("x", JValue.num 7)]
    ∧ heapGet (injectMemoryH memWithCoords (.str "get_places")
          [[("x", JValue.num 7)]] 0).1
        (injectMemoryH memWithCoords (.str "get_places")
          [[("x", JValue.num 7)]] 0).2
        = injectMemory memWithCoords (.str "get_places") [("x", JValue.num 7)] :=
  ⟨by decide,
   (inject_does_not_mutate_caller memWithCoords (.str "get_places")
     [[("x", JValue.num 7)]] 0 (by decide)).1,
   (inject_does_not_mutate_caller memWithCoords (.str "get_places")
     [[("x", JValue.num 7)]] 0 (by decide)).2.2⟩

/-! ## Claim C8 — remember twice: last value wins, metadata merges -/

/-- The metadata of the stored item at `k` (empty when the key is absent). -/
def metaAt (s : MemoryStore) (k : String) : Dict :=
  ((itemGet s.data k).map MemoryItem.metadata).getD []

theorem mdTruthy_of_get (d : Dict) (k : String) (v : JValue)
    (h : dictGet d k = some v) : mdTruthy (some d) = true := by
  cases d with
  | nil => simp [dictGet] at h
  | cons p rest => rfl

theorem itemGet_remember_self (s : MemoryStore) (k : String) (v : JValue)
    (md : Option Dict) (now : Nat) :
    itemGet (s.remember k v md now).data k
      = some (match itemGet s.data k with
              | some it => it.update v md now
              | none => MemoryItem.init k v md now) := by
  unfold MemoryStore.remember
  by_cases h : itemHas s.data k = true
  · rw [if_pos h]
    rw [itemHas_eq_isSome] at h
    obtain ⟨it, hit⟩ := Option.isSome_iff_exists.mp h
    dsimp only
    rw [itemGet_itemModify_self, hit]
    rfl
  · have h' : itemHas s.data k = false := by simpa using h
    rw [if_neg (by simp [h'])]
    dsimp only
    rw [itemGet_append]
    rw [itemHas_eq_isSome] at h'
    have hnone : itemGet s.data k = none :=
      Option.not_isSome_iff_eq_none.mp (by simp [h'])
    rw [hnone]
    simp [itemGet]

/-- C8 (confirmed): after `remember(k, v1, m1)` followed by
`remember(k, v2, m2)` (with the metadata dicts well-formed, i.e. without
duplicate keys), `recall(k)` returns `v2`, the stored item's metadata
contains every entry of `m2` together with every entry of `m1` that `m2`
does not override (merged, not replaced), and when the key did not yet
exist the first `remember` created a brand-new item appended to the
store. -/
theorem remember_twice_merge (s : MemoryStore) (k : String) (v1 v2 : JValue)
    (m1 m2 : Dict) (t1 t2 : Nat) (h1 : keysNodup m1) (h2 : keysNodup m2) :
    ((s.remember k v1 (some m1) t1).remember k v2 (some m2) t2).recall k = some v2
    ∧ (∀ k' v', dictGet m2 k' = some v' →
        dictGet (metaAt ((s.remember k v1 (some m1) t1).remember k v2 (some m2) t2) k) k'
          = some v')
    ∧ (∀ k' v', dictGet m1 k' = some v' → dictGet m2 k' = none →
        dictGet (metaAt ((s.remember k v1 (some m1) t1).remember k v2 (some m2) t2) k) k'
          = some v')
    ∧ (itemHas s.data k = false →
        (s.remember k v1 (some m1) t1).data
          = s.data ++ [(k, MemoryItem.init k v1 (some m1) t1)]) := by
  have hit1 := itemGet_remember_self s k v1 (some m1) t1
  have hit2 := itemGet_remember_self (s.remember k v1 (some m1) t1) k v2 (some m2) t2
  rw [hit1] at hit2
  have hmeta1 : ∀ k' v', dictGet m1 k' = some v' → dictGet m2 k' = none →
      dictGet ((match itemGet s.data k with
                | some it => it.update v1 (some m1) t1
                | none => MemoryItem.init k v1 (some m1) t1)).metadata k' = some v' := by
    intro k' v' hm1 _
    cases hb : itemGet s.data k with
    | none =>
        simp only [MemoryItem.init, mdOrEmpty]
        exact hm1
    | some it0 =>
        simp only [MemoryItem.update, mdTruthy_of_get _ _ _ hm1, if_pos]
        exact dictGet_dictUpdate_of_some _ _ _ _ h1 hm1
  refine ⟨?_, ?_, ?_, ?_⟩
  · unfold MemoryStore.recall
    rw [hit2]
    cases hb : itemGet s.data k <;> simp [MemoryItem.update]
  · intro k' v' hm2
    unfold metaAt
    rw [hit2]
    simp only [Option.map_some', Option.getD_some, MemoryItem.update,
      mdTruthy_of_get _ _ _ hm2, if_pos, mdOrEmpty]
    exact dictGet_dictUpdate_of_some _ _ _ _ h2 hm2
  · intro k' v' hm1 hm2n
    unfold metaAt
    rw [hit2]
    simp only [Option.map_some', Option.getD_some, MemoryItem.update, mdOrEmpty]
    by_cases ht2 : mdTruthy (some m2) = true
    · rw [if_pos ht2, dictGet_dictUpdate_of_none _ _ _ hm2n]
      exact hmeta1 k' v' hm1 hm2n
    · rw [if_neg ht2]
      exact hmeta1 k' v' hm1 hm2n
  · intro hfresh
    unfold MemoryStore.remember
    rw [if_neg (by simp [hfresh])]

/-- Witness for C8: two remembers on one key with overlapping metadata. -/
theorem remember_twice_merge_witness :
    keysNodup [("a", JValue.num 1), ("b", JValue.num 2)]
    ∧ keysNodup [("b", JValue.num 9)]
    ∧ (((MemoryStore.init 100).remember "k" (.str "v1")
          (some [("a", JValue.num 1), ("b", JValue.num 2)]) 0).remember "k"
          (.str "v2") (some [("b", JValue.num 9)]) 1).recall "k" = some (.str "v2")
    ∧ dictGet (metaAt (((MemoryStore.init 100).remember "k" (.str "v1")
          (some [("a", JValue.num 1), ("b", JValue.num 2)]) 0).remember "k"
          (.str "v2") (some [("b", JValue.num 9)]) 1) "k") "b" = some (.num 9)
    ∧ dictGet (metaAt (((MemoryStore.init 100).remember "k" (.str "v1")
          (some [("a", JValue.num 1), ("b", JValue.num 2)]) 0).remember "k"
          (.str "v2") (some [("b", JValue.num 9)]) 1) "k") "a" = some (.num 1) :=
  ⟨by simp [keysNodup], by simp [keysNodup],
   (remember_twice_merge (MemoryStore.init 100) "k" (.str "v1") (.str "v2")
     [("a", JValue.num 1), ("b", JValue.num 2)] [("b", JValue.num 9)] 0 1
     (by simp [keysNodup]) (by simp [keysNodup])).1,
   (remember_twice_merge (MemoryStore.init 100) "k" (.str "v1") (.str "v2")
     [("a", JValue.num 1), ("b", JValue.num 2)] [("b", JValue.num 9)] 0 1
     (by simp [keysNodup]) (by simp [keysNodup])).2.1 "b" (.num 9) rfl,
   (remember_twice_merge (MemoryStore.init 100) "k" (.str "v1") (.str "v2")
     [("a", JValue.num 1), ("b", JValue.num 2)] [("b", JValue.num 9)] 0 1
     (by simp [keysNodup]) (by simp [keysNodup])).2.2.1 "a" (.num 1) rfl rfl⟩

/-! ## Claim C3 — snapshot round-trip -/

theorem restoreItem_to_dict (s : MemoryStore) (now : Nat) (k : String)
    (it : MemoryItem) :
    restoreItem s now k it.to_dict
      = .ok (s.remember k it.value (some it.metadata) now) := by
  simp [restoreItem, MemoryItem.to_dict, dictGet]

theorem restoreMessage_to_dict (s : MemoryStore) (now : Nat) (m : Message) :
    restoreMessage s now m.to_dict
      = .ok (s.add_message m.role m.content (some m.metadata) now) := by
  simp [restoreMessage, Message.to_dict, dictGet]

theorem restoreFold_items (now : Nat) :
    ∀ (items : List (String × MemoryItem)) (acc : MemoryStore),
      (items.map Prod.fst).Nodup →
      (∀ p ∈ items, (p.2).key = p.1) →
      (∀ p ∈ items, itemHas acc.data p.1 = false) →
      restoreFold (fun s p => restoreItem s now p.1 p.2) acc
          (items.map (fun p => (p.1, p.2.to_dict)))
        = .ok ⟨acc.conversation,
            acc.data ++ items.map
              (fun p => (p.1, { p.2 with created_at := now, updated_at := now }))⟩ := by
  intro items
  induction items with
  | nil =>
      intro acc _ _ _
      simp [restoreFold]
  | cons p rest ih =>
      intro acc hnd hkeys hfresh
      obtain ⟨k, it⟩ := p
      simp only [List.map_cons, List.nodup_cons] at hnd
      have hkey : it.key = k := hkeys ⟨k, it⟩ (List.mem_cons_self _ _)
      have hfr : itemHas acc.data k = false := hfresh ⟨k, it⟩ (List.mem_cons_self _ _)
      simp only [List.map_cons, restoreFold]
      rw [restoreItem_to_dict]
      unfold MemoryStore.remember
      rw [if_neg (by simp [hfr])]
      dsimp only
      have hinit : MemoryItem.init k it.value (some it.metadata) now
          = { it with created_at := now, updated_at := now } := by
        obtain ⟨itk, itv, itm, itc, itu⟩ := it
        simp only [MemoryItem.init, mdOrEmpty]
        simp only at hkey
        rw [hkey]
      rw [hinit]
      have hstep := ih
        (⟨acc.conversation,
          acc.data ++ [(k, { it with created_at := now, updated_at := now })]⟩ :
          MemoryStore)
        hnd.2
        (fun q hq => hkeys q (List.mem_cons_of_mem _ hq))
        (fun q hq => by
          rw [itemHas_append]
          have hq1 : itemHas acc.data q.1 = false :=
            hfresh q (List.mem_cons_of_mem _ hq)
          have hq2 : ¬ k = q.1 := by
            intro he
            exact hnd.1 (he ▸ List.mem_map_of_mem Prod.fst hq)
          simp [hq1, itemHas, hq2])
      refine hstep.trans ?_
      simp [List.append_assoc]

/-- The restore-time `add_message` call a serialised message gives rise to,
as an `AddCall`. -/
def restoreCall (now : Nat) (m : Message) : AddCall :=
  ⟨m.role, m.content, some m.metadata, now⟩

theorem restoreCall_message (now : Nat) (m : Message) :
    (restoreCall now m).message = { m with timestamp := now } := by
  obtain ⟨mr, mc, mm, mt⟩ := m
  simp [restoreCall, AddCall.message, Message.init, mdOrEmpty]

theorem map_restoreCall_message (now : Nat) : ∀ (msgs : List Message),
    ((msgs.map (restoreCall now)).map AddCall.message)
      = msgs.map (fun m => { m with timestamp := now })
  | [] => rfl
  | m :: rest => by
      simp only [List.map_cons, map_restoreCall_message now rest,
        restoreCall_message]

/-- Restoring a serialised conversation is exactly a sequence of `add`
calls on the accumulator's history, one per serialised message, for any
number of messages (no bound hypothesis: trimming is the history's own
business). -/
theorem restoreFold_messages (now : Nat) :
    ∀ (msgs : List Message) (acc : MemoryStore),
      restoreFold (fun s m => restoreMessage s now m) acc (msgs.map Message.to_dict)
        = .ok ⟨acc.conversation.addAll (msgs.map (restoreCall now)), acc.data⟩ := by
  intro msgs
  induction msgs with
  | nil =>
      intro acc
      obtain ⟨conv, cdata⟩ := acc
      simp [restoreFold, ConversationHistory.addAll]
  | cons m rest ih =>
      intro acc
      simp only [List.map_cons, restoreFold]
      rw [restoreMessage_to_dict]
      refine (ih _).trans ?_
      simp [MemoryStore.add_message, ConversationHistory.addAll, restoreCall]

/-- C3 (amended): for every well-formed store (distinct keys, items indexed
by their own key), restoring the snapshot produced by `to_json` succeeds —
`MemoryError` arises only on malformed snapshot input — and yields a store
with exactly the original keys, values and item metadata, and with exactly
the most recent 100 of the original conversation messages (so the whole
conversation iff it has at most 100 messages), each with its original role,
content and metadata; but every timestamp (`created_at`, `updated_at`,
message `timestamp`) is reset to the restore-time clock and the history
bound is reset to the default 100, because `from_json` rebuilds the store
through `cls()` and fresh `remember` / `add_message` calls, ignoring the
serialised timestamps and the original bound. -/
theorem memory_roundtrip (s : MemoryStore) (now : Nat)
    (hnd : (s.data.map Prod.fst).Nodup)
    (hkeys : ∀ p ∈ s.data, (p.2).key = p.1) :
    MemoryStore.from_json (s.to_json) now = .ok (restampStore s now) := by
  unfold MemoryStore.to_json MemoryStore.from_json
  simp only [dictGet]
  rw [if_neg (show ¬ ("data" : String) = "conversation" by decide),
      if_neg (show ¬ ("conversation" : String) = "data" by decide)]
  simp only [if_true, Option.getD_some]
  rw [restoreFold_items now s.data MemoryStore.init hnd hkeys
        (fun p _ => rfl)]
  dsimp only
  refine (restoreFold_messages now s.conversation.messages _).trans ?_
  have hcalls := ConversationHistory.addAll_messages
    (s.conversation.messages.map (restoreCall now)) (ConversationHistory.init 100)
    (by simp [ConversationHistory.init]) (by simp [ConversationHistory.init])
  have hext : ∀ (c : ConversationHistory) (A : List Message) (B : Nat),
      c.messages = A → c.max_messages = B → c = ⟨A, B⟩ := by
    intro c A B hA hB
    cases c
    cases hA
    cases hB
    rfl
  have hconv : (ConversationHistory.init 100).addAll
        (s.conversation.messages.map (restoreCall now))
      = ⟨(s.conversation.messages.map (fun m => { m with timestamp := now })).drop
          (s.conversation.messages.length - 100), 100⟩ := by
    apply hext
    · rw [hcalls.1]
      simp only [ConversationHistory.init, List.nil_append,
        map_restoreCall_message]
      unfold takeLastN
      rw [List.length_map]
    · exact hcalls.2
  rw [show (⟨MemoryStore.init.conversation,
        MemoryStore.init.data ++ s.data.map
          (fun p => (p.1, { p.2 with created_at := now, updated_at := now }))⟩ :
        MemoryStore).conversation = ConversationHistory.init 100 from rfl,
      hconv]
  simp [MemoryStore.init, restampStore]

/-- A one-item, one-message store created at clock 0. -/
def storeAtZero : MemoryStore :=
  ((MemoryStore.init 100).remember "k" (.num 1) none 0).add_message
    "user" (.str "hi") none 0

/-- A store configured with a 200-message bound holding 101 messages. -/
def longStore : MemoryStore :=
  (List.range 101).foldl
    (fun s i => s.add_message "user" (.str (toString i)) none 0)
    (MemoryStore.init 200)

/-- Counterexample for C3 as stated: restoring the snapshot at clock 1
yields an item whose `created_at` is 1 while the original's is 0 (and
likewise for the message timestamp) — timestamps are not round-tripped;
and restoring a 101-message conversation (serialised from a store whose own
bound was 200) keeps only 100 messages, because `from_json` rebuilds with
the default bound — messages are not exactly round-tripped either. -/
theorem memory_roundtrip_cex :
    (MemoryStore.from_json (storeAtZero.to_json) 1).toOption.map
        (fun s' => (itemGet s'.data "k").map MemoryItem.created_at)
      = some (some 1)
    ∧ (itemGet storeAtZero.data "k").map MemoryItem.created_at = some 0
    ∧ (MemoryStore.from_json (storeAtZero.to_json) 1).toOption.map
        (fun s' => s'.conversation.messages.map Message.timestamp)
      = some [1]
    ∧ storeAtZero.conversation.messages.map Message.timestamp = [0]
    ∧ (1 : Nat) ≠ 0
    ∧ longStore.conversation.messages.length = 101
    ∧ (MemoryStore.from_json (longStore.to_json) 1).toOption.map
        (fun s' => s'.conversation.messages.length)
      = some 100
    ∧ (101 : Nat) ≠ 100 := by
  refine ⟨rfl, rfl, rfl, rfl, by decide, rfl, rfl, by decide⟩

/-! ## Claim C4 — extraction of an already-valid JSON block -/

/-- C4 (amended): `extract_action` applies single-quote replacement and
trailing-comma stripping unconditionally to the block contents before the
first parse attempt; only whitespace stripping waits for a parse failure.
Hence, for a block whose stripped contents are left unchanged by those two
transformations and parse as a JSON object, the result is exactly the
normalisation of the direct parse. (For valid JSON that the transformations
do alter — e.g. a string literal containing a quote or a comma-bracket
sequence — the result differs from the direct parse: see the
counterexample.) -/
theorem extract_action_valid_block (text blk : String) (fs : Dict)
    (hfind : findActionBlock text = some blk)
    (hq : replaceQuotes (pyStrip blk) = pyStrip blk)
    (hc : subTrailingCommas (pyStrip blk) = pyStrip blk)
    (hp : jsonParse (pyStrip blk) = some (.obj fs)) :
    extract_action text = .ok (normFields fs) := by
  unfold extract_action
  rw [hfind]
  dsimp only
  rw [hq, hc, hp]

/-- The spec's well-formed action reply. -/
def wellFormedReply : String :=
  "<action>\x7b\"tool\": \"t\", \"tool_input\": \x7b\"a\": 1\x7d, \"reasoning\": \"r\"\x7d</action>"

/-- The block contents of `wellFormedReply`. -/
def wellFormedBlock : String :=
  "\x7b\"tool\": \"t\", \"tool_input\": \x7b\"a\": 1\x7d, \"reasoning\": \"r\"\x7d"

/-- The direct parse of the well-formed block. -/
def wellFormedParsed : Dict :=
  [("tool", .str "t"), ("tool_input", .obj [("a", .num 1)]),
   ("reasoning", .str "r")]

/-- Witness for C4: the spec's example block yields exactly the direct
parse (normalisation is the identity on it). -/
theorem extract_action_valid_block_witness :
    findActionBlock wellFormedReply = some wellFormedBlock
    ∧ jsonParse (pyStrip wellFormedBlock) = some (.obj wellFormedParsed)
    ∧ normFields wellFormedParsed = wellFormedParsed
    ∧ extract_action wellFormedReply = .ok (normFields wellFormedParsed) :=
  ⟨rfl, rfl, rfl,
   extract_action_valid_block wellFormedReply wellFormedBlock wellFormedParsed
     rfl rfl rfl rfl⟩

/-- A reply whose block is valid JSON but contains the two characters `,]`
inside a string literal. -/
def commaBracketReply : String :=
  "<action>\x7b\"tool\": \"t\", \"tool_input\": \x7b\"text\": \",]\"\x7d, \"reasoning\": \"r\"\x7d</action>"

/-- The block contents of `commaBracketReply`. -/
def commaBracketBlock : String :=
  "\x7b\"tool\": \"t\", \"tool_input\": \x7b\"text\": \",]\"\x7d, \"reasoning\": \"r\"\x7d"

/-- The direct parse of that block: the text field holds the string `,]`. -/
def commaBracketParsed : Dict :=
  [("tool", .str "t"), ("tool_input", .obj [("text", .str ",]")]),
   ("reasoning", .str "r")]

/-- Counterexample for C4 as stated: the block is valid JSON, but the
trailing-comma regex is applied before the first parse attempt and rewrites
the string literal `",]"` to `"]"`, so `extract_action` returns a value
different from the normalised direct parse. -/
theorem extract_action_valid_block_cex :
    findActionBlock commaBracketReply = some commaBracketBlock
    ∧ jsonParse (pyStrip commaBracketBlock) = some (.obj commaBracketParsed)
    ∧ extract_action commaBracketReply
        = .ok [("tool", .str "t"), ("tool_input", .obj [("text", .str "]")]),
               ("reasoning", .str "r")]
    ∧ extract_action commaBracketReply
        ≠ .ok (normFields commaBracketParsed) := by
  refine ⟨rfl, rfl, rfl, ?_⟩
  intro h
  rw [show extract_action commaBracketReply
        = .ok [("tool", .str "t"), ("tool_input", .obj [("text", .str "]")]),
               ("reasoning", .str "r")] from rfl] at h
  injection h with h
  exact absurd h (by decide)

/-! ## Claim C5 — behaviour when the iteration cap is exhausted -/

/-- Witness for C3: the one-item, one-message store round-trips (up to the
restore-time restamping) at clock 5. -/
theorem memory_roundtrip_witness :
    (storeAtZero.data.map Prod.fst).Nodup
    ∧ MemoryStore.from_json (storeAtZero.to_json) 5
        = .ok (restampStore storeAtZero 5) :=
  ⟨by decide,
   memory_roundtrip storeAtZero 5 (by decide) (by decide)⟩

end AgentsCore
